import Mathlib

/-!
Verification development for the wasvy guest ECS contract.

The repository ships guest-facing interface stubs
(`examples/python_example/src/example/imports/app.py`) together with an
example mod (`examples/python_example/src/python_example/app.py`).
The host runtime behind the stubs is specified in `spec.md`; where a
definition embeds that host behaviour rather than code present in the
repository, its doc comment says so explicitly.
-/

namespace Wasvy

/-- Component-type names are globally unique string keys. -/
abbrev CompName := String

/-- Component values are opaque serialized payload blobs (strings). -/
abbrev Payload := String

/-- Query filters, embedding the `QueryFor` union of
`example/imports/app.py` (`QueryFor_Ref`, `QueryFor_Mut`, `QueryFor_With`,
`QueryFor_Without`, each carrying a component-name string). -/
inductive QueryFor where
  | Ref : CompName → QueryFor
  | Mut : CompName → QueryFor
  | With : CompName → QueryFor
  | Without : CompName → QueryFor
deriving DecidableEq, Repr

/-- Names and mutability of the data filters (Ref/Mut) of a query, in
declaration order. With/Without filters are skipped and contribute no
position. -/
def dataFilters (q : List QueryFor) : List (CompName × Bool) :=
  q.filterMap fun f =>
    match f with
    | .Ref n => some (n, false)
    | .Mut n => some (n, true)
    | .With _ => none
    | .Without _ => none

/-- Spec-side definition: the names a matching entity must possess,
taken from the spec's words (superset of all Ref/Mut/With names). -/
def requiredNames (q : List QueryFor) : List CompName :=
  q.filterMap fun f =>
    match f with
    | .Ref n => some n
    | .Mut n => some n
    | .With n => some n
    | .Without _ => none

/-- Spec-side definition: the names a matching entity must lack,
taken from the spec's words (disjoint from all Without names). -/
def withoutNames (q : List QueryFor) : List CompName :=
  q.filterMap fun f =>
    match f with
    | .Without n => some n
    | _ => none

/-- Modelled from the spec: the per-filter matching check of the
QueryEngine (host runtime, absent from the repository sources): a
Ref/Mut/With filter demands presence of its name, a Without filter
demands absence. -/
def filterMatch (comps : List CompName) (f : QueryFor) : Bool :=
  match f with
  | .Ref n => comps.contains n
  | .Mut n => comps.contains n
  | .With n => comps.contains n
  | .Without n => !comps.contains n

/-- Modelled from the spec: an archetype's component set satisfies a
query when every filter matches. -/
def queryMatches (comps : List CompName) (q : List QueryFor) : Bool :=
  q.all (filterMatch comps)

/-- An archetype: the exact component-name set shared by a group of
entities, with the stable ordered sequence of entities stored in it. -/
structure Archetype where
  comps : List CompName
  entities : List Nat
deriving DecidableEq, Repr

/-- An archetype table is the collection of archetypes. -/
abbrev ArchetypeTable := List Archetype

/-- Modelled from the spec: `evaluate(CompiledQuery, ArchetypeTable)`
of the QueryEngine (host runtime, absent from the repository sources):
one result per entity of each archetype whose component set satisfies
the query; the result sequence is flattened in table order. -/
def evaluate (q : List QueryFor) (t : ArchetypeTable) : List Nat :=
  (t.filter fun a => queryMatches a.comps q).flatMap (·.entities)

/-- A live entity row: its identifier together with its components,
an ordered association list from component name to payload blob. -/
structure EntityRec where
  id : Nat
  comps : List (CompName × Payload)
deriving DecidableEq, Repr

/-- The world state: the next fresh entity id and the live entities. -/
structure World where
  nextId : Nat
  entities : List EntityRec
deriving DecidableEq, Repr

/-- Look up the payload stored for a component name. -/
def lookupComp (cs : List (CompName × Payload)) (n : CompName) : Option Payload :=
  (cs.find? fun p => p.1 == n).map (·.2)

/-- A component handle handed to a system by a query result: the
component's name, its current payload, and whether the query declared
it with `QueryFor::Mut` (the mutability flag fixed at
query-declaration time). -/
structure CompHandle where
  name : CompName
  value : Payload
  declaredMut : Bool
deriving DecidableEq, Repr

/-- Modelled from the spec: `Component.set` of the host runtime (absent
from the repository sources; the stub's doc says it traps if the
component was not declared as mutable). `none` models the trap. -/
def CompHandle.set (h : CompHandle) (v : Payload) : Option CompHandle :=
  if h.declaredMut then some { name := h.name, value := v, declaredMut := h.declaredMut }
  else none

/-- A query result: the matching entity's id plus one component handle
per Ref/Mut filter, positionally in declaration order. -/
structure QueryResult where
  entity : Nat
  data : List CompHandle
deriving DecidableEq, Repr

/-- Modelled from the spec: `QueryResult.component(index)` (host
runtime, absent from the repository sources): index addresses the
Ref/Mut list positionally; out-of-range indices yield nothing. -/
def QueryResult.component (r : QueryResult) (i : Nat) : Option CompHandle :=
  r.data[i]?

/-- The handle built for one data filter of a query bound to an entity. -/
def mkHandle (e : EntityRec) (nf : CompName × Bool) : CompHandle :=
  { name := nf.1, value := (lookupComp e.comps nf.1).getD (""), declaredMut := nf.2 }

/-- Modelled from the spec: the QueryResult produced for a matching
entity: one handle per Ref/Mut filter in declaration order, each
mutable exactly when its filter was `Mut`. -/
def mkQueryResult (e : EntityRec) (q : List QueryFor) : QueryResult :=
  { entity := e.id, data := (dataFilters q).map (mkHandle e) }

/-- Number of Ref/Mut filters in a query. -/
def countRefMut (q : List QueryFor) : Nat :=
  q.countP fun f =>
    match f with
    | .Ref _ => true
    | .Mut _ => true
    | _ => false

/-- Modelled from the spec: writing one component onto an entity's
component list: any existing entry of the same name is overwritten
(dropped and replaced by the fresh payload). -/
def setComp (cs : List (CompName × Payload)) (n : CompName) (v : Payload) :
    List (CompName × Payload) :=
  (cs.filter fun p => !(p.1 == n)) ++ [(n, v)]

/-- Modelled from the spec: applying a bundle (ordered list of
name/payload pairs) writes its entries in order, so a later duplicate
name overwrites an earlier one. -/
def insertBundle (cs : List (CompName × Payload))
    (b : List (CompName × Payload)) : List (CompName × Payload) :=
  b.foldl (fun acc p => setComp acc p.1 p.2) cs

/-- Modelled from the spec: removing a bundle of component names keeps
exactly the entries whose names are not listed. -/
def removeNames (cs : List (CompName × Payload)) (ns : List CompName) :
    List (CompName × Payload) :=
  cs.filter fun p => !ns.contains p.1

/-- The payload of the last occurrence of a name in a bundle. -/
def lastPayload (b : List (CompName × Payload)) (n : CompName) : Option Payload :=
  (b.reverse.find? fun p => p.1 == n).map (·.2)

/-- Command-buffer entries, per the spec's CommandBuffer data model. -/
inductive Command where
  | spawnEmpty : Command
  | spawn : List (CompName × Payload) → Command
  | insert : Nat → List (CompName × Payload) → Command
  | remove : Nat → List CompName → Command
  | despawn : Nat → Command
  | tryDespawn : Nat → Command
deriving DecidableEq, Repr

/-- An entity id is alive when some live row carries it. -/
def World.isAlive (w : World) (e : Nat) : Bool :=
  w.entities.any fun r => r.id == e

/-- Rewrite the component list of the entity with the given id. -/
def World.modifyEntity (w : World) (e : Nat)
    (f : List (CompName × Payload) → List (CompName × Payload)) : World :=
  { nextId := w.nextId
    entities := w.entities.map fun r =>
      if r.id == e then { id := r.id, comps := f r.comps } else r }

/-- Drop the entity with the given id from the world. -/
def World.removeEntity (w : World) (e : Nat) : World :=
  { nextId := w.nextId, entities := w.entities.filter fun r => !(r.id == e) }

/-- The component list currently on an entity (empty if it is dead). -/
def World.compsOf (w : World) (e : Nat) : List (CompName × Payload) :=
  ((w.entities.find? fun r => r.id == e).map (·.comps)).getD []

/-- The diagnostic emitted when a despawn targets a dead entity. -/
def notFoundWarning (e : Nat) : String :=
  "warning: despawn of non-existent entity " ++ toString e

/-- The diagnostic emitted when a deferred insert/remove targets a
stale (despawned) entity and is dropped. -/
def staleWarning (e : Nat) : String :=
  "warning: command dropped, stale entity " ++ toString e

/-- Modelled from the spec: applying one buffered command to the world
(host runtime, absent from the repository sources). Spawn materializes
a fresh id; insert/remove against a dead entity are individually
dropped with a diagnostic; `despawn` of a dead entity emits a warning
and continues; `try-despawn` of a dead entity is silent. The returned
list carries the diagnostics. -/
def applyCommand (w : World) (c : Command) : World × List String :=
  match c with
  | .spawnEmpty =>
      ({ nextId := w.nextId + 1,
         entities := w.entities ++ [{ id := w.nextId, comps := [] }] }, [])
  | .spawn b =>
      ({ nextId := w.nextId + 1,
         entities := w.entities ++ [{ id := w.nextId, comps := insertBundle [] b }] }, [])
  | .insert e b =>
      if w.isAlive e then (w.modifyEntity e (fun cs => insertBundle cs b), [])
      else (w, [staleWarning e])
  | .remove e ns =>
      if w.isAlive e then (w.modifyEntity e (fun cs => removeNames cs ns), [])
      else (w, [staleWarning e])
  | .despawn e =>
      if w.isAlive e then (w.removeEntity e, [])
      else (w, [notFoundWarning e])
  | .tryDespawn e =>
      if w.isAlive e then (w.removeEntity e, [])
      else (w, [])

/-- Modelled from the spec: applying a whole command buffer in
submission order: each command applies in turn, its diagnostics are
accumulated, and an individual failure never stops the rest of the
buffer. -/
def applyBuffer (w : World) (cs : List Command) : World × List String :=
  match cs with
  | [] => (w, [])
  | c :: rest =>
      let out := applyCommand w c
      let outRest := applyBuffer out.1 rest
      (outRest.1, out.2 ++ outRest.2)

/-- One system invocation's contribution to a stage, as seen by the
scheduler: the commands it queued up to its completion or trap point,
and whether it trapped. -/
abbrev Invocation := List Command × Bool

/-- Modelled from the spec: after every system of a stage has finished
(normally or by trapping), the scheduler exclusively applies every
queued buffer in submission order; a trap aborts only the offending
invocation's remaining work, and the commands it queued up to the trap
point still apply. -/
def runStage (w : World) (invs : List Invocation) : World :=
  invs.foldl (fun acc inv => (applyBuffer acc inv.1).1) w

/-- Component name used by the example mod (`python_example/app.py`). -/
def myComponentName : CompName := "python::MyComponent"

/-- Component name used by the example mod (`python_example/app.py`). -/
def transformName : CompName := "bevy_transform::components::transform::Transform"

/-- Component name used by the example mod (`python_example/app.py`). -/
def myMarkerName : CompName := "host_example::MyMarker"

/-- The query declared for `spin-cube` in `Example.setup`:
`[Mut(Transform), With(MyMarker)]`. -/
def spinCubeQuery : List QueryFor :=
  [QueryFor.Mut transformName, QueryFor.With myMarkerName]

/-- The query declared for `my-system` in `Example.setup`:
`[With("python::MyComponent")]`. -/
def mySystemQuery : List QueryFor :=
  [QueryFor.With myComponentName]

/-- Payload `json.dumps(asdict(MyComponent(value=0)))` from `my_system`. -/
def myComponentPayload : Payload := "\x7b\"value\": 0\x7d"

/-- The default-transform JSON literal built in `my_system`. -/
def defaultTransformPayload : Payload :=
  "\x7b\"translation\": [0.0, 0.0, 0.0], \"rotation\": [1.0, 0.0, 0.0, 0.0], \"scale\": [1.0, 1.0, 1.0]\x7d"

/-- The bundle `my_system` passes to `commands.spawn`. -/
def mySpawnBundle : List (CompName × Payload) :=
  [(myComponentName, myComponentPayload),
   (transformName, defaultTransformPayload)]

/-- The component names currently on an entity row. -/
def entityNames (r : EntityRec) : List CompName := r.comps.map Prod.fst

/-- Modelled from the spec: the lazy result sequence a query yields for
one system invocation, entity-level view: one QueryResult per live
entity whose component set satisfies the query. -/
def worldResults (q : List QueryFor) (w : World) : List QueryResult :=
  (w.entities.filter fun r => queryMatches (entityNames r) q).map
    fun r => mkQueryResult r q

/-- System `Example.my_system` from `python_example/app.py`: drain the query
counting its results; if the count has reached 10, queue nothing,
otherwise queue one spawn of the MyComponent/Transform bundle. -/
def mySystemCommands (w : World) : List Command :=
  let count := (worldResults mySystemQuery w).length
  if 10 ≤ count then [] else [Command.spawn mySpawnBundle]

/-- System `Example.spin_cube` from `python_example/app.py`, with the
quaternion JSON arithmetic abstracted into the payload transformer `g`:
for every entity matching `[Mut(Transform), With(MyMarker)]`, the
Transform payload is replaced by `g` of its current value via
`Component.set`; no structural change is queued. -/
def spinCubeRun (g : Payload → Payload) (w : World) : World :=
  { nextId := w.nextId
    entities := w.entities.map fun r =>
      if queryMatches (entityNames r) spinCubeQuery then
        { id := r.id
          comps := setComp r.comps transformName
            (g ((lookupComp r.comps transformName).getD (""))) }
      else r }

/-- One execution of the Update stage of the example mod: both systems
run against the frozen pre-stage world (`spin_cube` mutating component
values in place, `my_system` queuing commands), then the scheduler
applies the queued buffer. -/
def runUpdate (g : Payload → Payload) (w : World) : World :=
  (applyBuffer (spinCubeRun g w) (mySystemCommands w)).1

/-- Number of live entities bearing "python::MyComponent". -/
def countMy (w : World) : Nat :=
  (w.entities.filter fun r => (entityNames r).contains myComponentName).length

/-- Number of live entities. -/
def numEntities (w : World) : Nat := w.entities.length

/-- Modelled from the spec: the single exhaustible result sequence a
`Query` system param is bound to for one system invocation. -/
structure QueryIter where
  remaining : List QueryResult
deriving DecidableEq, Repr

/-- Modelled from the spec: `Query.iter` — produce the next result, or
the "no more results" sentinel (`none`) once the sequence is
exhausted; never an error. -/
def QueryIter.next (s : QueryIter) : Option QueryResult × QueryIter :=
  match s.remaining with
  | [] => (none, s)
  | r :: rs => (some r, ⟨rs⟩)

/-- The iterator state after one `iter` call. -/
def QueryIter.advance (s : QueryIter) : QueryIter := s.next.2

/-- The fresh iterator bound to a system invocation for a query. -/
def queryIterInit (q : List QueryFor) (w : World) : QueryIter :=
  ⟨worldResults q w⟩

/-- Function `q_normalize` from `python_example/app.py`, with Python floats read
as real numbers: normalize a quaternion, mapping the all-zero input to
the identity quaternion instead of dividing by zero. The Python
function unpacks exactly four elements; the four components are taken
as separate arguments. -/
noncomputable def q_normalize (w x y z : ℝ) : List ℝ :=
  if Real.sqrt (w * w + x * x + y * y + z * z) = 0 then [1, 0, 0, 0]
  else
    [w / Real.sqrt (w * w + x * x + y * y + z * z),
     x / Real.sqrt (w * w + x * x + y * y + z * z),
     y / Real.sqrt (w * w + x * x + y * y + z * z),
     z / Real.sqrt (w * w + x * x + y * y + z * z)]

lemma contains_iff_mem (l : List CompName) (a : CompName) :
    l.contains a = true ↔ a ∈ l := by
  simp

lemma queryMatches_iff (comps : List CompName) (q : List QueryFor) :
    queryMatches comps q = true ↔
      ((∀ n ∈ requiredNames q, n ∈ comps) ∧ (∀ n ∈ withoutNames q, n ∉ comps)) := by
  induction q with
  | nil => simp [queryMatches, requiredNames, withoutNames]
  | cons f fs ih =>
      cases f with
      | Ref n =>
          simp [queryMatches, requiredNames, withoutNames, filterMatch,
            List.all_cons, contains_iff_mem] at ih ⊢
          constructor
          · rintro ⟨h1, h2⟩
            exact ⟨⟨h1, (ih.mp h2).1⟩, (ih.mp h2).2⟩
          · rintro ⟨⟨h1, h2⟩, h3⟩
            exact ⟨h1, ih.mpr ⟨h2, h3⟩⟩
      | Mut n =>
          simp [queryMatches, requiredNames, withoutNames, filterMatch,
            List.all_cons, contains_iff_mem] at ih ⊢
          constructor
          · rintro ⟨h1, h2⟩
            exact ⟨⟨h1, (ih.mp h2).1⟩, (ih.mp h2).2⟩
          · rintro ⟨⟨h1, h2⟩, h3⟩
            exact ⟨h1, ih.mpr ⟨h2, h3⟩⟩
      | With n =>
          simp [queryMatches, requiredNames, withoutNames, filterMatch,
            List.all_cons, contains_iff_mem] at ih ⊢
          constructor
          · rintro ⟨h1, h2⟩
            exact ⟨⟨h1, (ih.mp h2).1⟩, (ih.mp h2).2⟩
          · rintro ⟨⟨h1, h2⟩, h3⟩
            exact ⟨h1, ih.mpr ⟨h2, h3⟩⟩
      | Without n =>
          simp [queryMatches, requiredNames, withoutNames, filterMatch,
            List.all_cons, contains_iff_mem] at ih ⊢
          constructor
          · rintro ⟨h1, h2⟩
            exact ⟨(ih.mp h2).1, h1, (ih.mp h2).2⟩
          · rintro ⟨h1, h2, h3⟩
            exact ⟨h2, ih.mpr ⟨h1, h3⟩⟩

/-- C1: evaluating a query against an archetype table returns exactly
the entities lying in an archetype whose component set is a superset of
the query's Ref/Mut/With names and disjoint from its Without names; no
other entity appears in the results. -/
theorem evaluate_exact (q : List QueryFor) (t : ArchetypeTable) (e : Nat) :
    e ∈ evaluate q t ↔
      ∃ a, a ∈ t ∧ e ∈ a.entities ∧
        (∀ n ∈ requiredNames q, n ∈ a.comps) ∧
        (∀ n ∈ withoutNames q, n ∉ a.comps) := by
  unfold evaluate
  rw [List.mem_flatMap]
  constructor
  · rintro ⟨a, ha, he⟩
    rcases List.mem_filter.mp ha with ⟨hat, hm⟩
    rcases (queryMatches_iff a.comps q).mp hm with ⟨h1, h2⟩
    exact ⟨a, hat, he, h1, h2⟩
  · rintro ⟨a, hat, he, h1, h2⟩
    exact ⟨a, List.mem_filter.mpr ⟨hat, (queryMatches_iff a.comps q).mpr ⟨h1, h2⟩⟩, he⟩

lemma getElem?_isSome_iff {α : Type} (l : List α) (i : Nat) :
    l[i]?.isSome = true ↔ i < l.length := by
  constructor
  · intro h
    rcases Option.isSome_iff_exists.mp h with ⟨a, ha⟩
    exact (List.getElem?_eq_some.mp ha).1
  · intro h
    simp [List.getElem?_eq_getElem h]

lemma dataFilters_length (q : List QueryFor) :
    (dataFilters q).length = countRefMut q := by
  induction q with
  | nil => rfl
  | cons f fs ih =>
      cases f <;> simp [dataFilters, countRefMut, List.countP_cons] at ih ⊢ <;> omega

/-- C3: `component(index)` addresses only the Ref and Mut filters,
positionally in declaration order; With and Without filters contribute
no component index, so a query with k Ref/Mut filters exposes exactly
the indices 0 through k-1, regardless of interleaved With/Without
filters. -/
theorem component_indexing (e : EntityRec) (q : List QueryFor) (i : Nat) :
    (((mkQueryResult e q).component i).isSome ↔ i < countRefMut q) ∧
    (mkQueryResult e q).component i = ((dataFilters q)[i]?).map (mkHandle e) ∧
    (∀ xs ys n, dataFilters (xs ++ QueryFor.With n :: ys) = dataFilters (xs ++ ys)) ∧
    (∀ xs ys n, dataFilters (xs ++ QueryFor.Without n :: ys) = dataFilters (xs ++ ys)) := by
  refine ⟨?_, ?_, ?_, ?_⟩
  · rw [← dataFilters_length, mkQueryResult, QueryResult.component]
    simpa using getElem?_isSome_iff ((dataFilters q).map (mkHandle e)) i
  · simp [mkQueryResult, QueryResult.component]
  · intro xs ys n
    simp [dataFilters, List.filterMap_append]
  · intro xs ys n
    simp [dataFilters, List.filterMap_append]

/-- C4: `Component.set` traps exactly when the handle's component was
not declared with `QueryFor::Mut` in the requesting system's query (a
handle delivered at index i is mutable precisely when the i-th Ref/Mut
filter was `Mut`); when declared Mut the set succeeds with the new
payload; and a trap only ends the offending invocation: the stage
still applies that invocation's queued commands and every later
system's buffer, whatever the trap flag says. -/
theorem set_traps_iff_not_mut (e : EntityRec) (q : List QueryFor) (i : Nat)
    (h : CompHandle) (v : Payload)
    (hc : (mkQueryResult e q).component i = some h) :
    (h.set v = none ↔ h.declaredMut = false) ∧
    (h.declaredMut = true →
      h.set v = some { name := h.name, value := v, declaredMut := true }) ∧
    (dataFilters q)[i]? = some (h.name, h.declaredMut) ∧
    (∀ n q2, dataFilters (QueryFor.Mut n :: q2) = (n, true) :: dataFilters q2) ∧
    (∀ n q2, dataFilters (QueryFor.Ref n :: q2) = (n, false) :: dataFilters q2) ∧
    (∀ w cmds b rest,
      runStage w ((cmds, b) :: rest) = runStage (applyBuffer w cmds).1 rest) := by
  refine ⟨?_, ?_, ?_, ?_, ?_, ?_⟩
  · cases hm : h.declaredMut <;> simp [CompHandle.set, hm]
  · intro hm
    simp [CompHandle.set, hm]
  · rw [mkQueryResult, QueryResult.component] at hc
    simp only at hc
    rw [List.getElem?_map] at hc
    rcases Option.map_eq_some'.mp hc with ⟨nf, hnf, hmk⟩
    rw [hnf]
    rw [← hmk]
    rfl
  · intro n q2
    rfl
  · intro n q2
    rfl
  · intro w cmds b rest
    rfl

/-- Witness for C4 at a concrete query and entity. -/
theorem set_traps_iff_not_mut_witness :
    (mkQueryResult { id := 0, comps := [("A", "x")] } [QueryFor.Mut ("A")]).component 0 =
      some { name := "A", value := "x", declaredMut := true } ∧
    (CompHandle.set { name := "A", value := "x", declaredMut := true } "y" = none ↔
      CompHandle.declaredMut { name := "A", value := "x", declaredMut := true } = false) :=
  ⟨by decide,
   (set_traps_iff_not_mut { id := 0, comps := [("A", "x")] } [QueryFor.Mut ("A")] 0
     { name := "A", value := "x", declaredMut := true } "y" (by decide)).1⟩

/-- C5: `despawn` on an already-dead entity leaves the world unchanged
and emits exactly the not-found diagnostic while buffer application
continues with the remaining commands; `try-despawn` on the same dead
entity emits nothing; on a live entity the two commands despawn it
identically. -/
theorem despawn_dead_warns (w : World) (e : Nat) :
    (w.isAlive e = false →
      applyCommand w (Command.despawn e) = (w, [notFoundWarning e]) ∧
      applyCommand w (Command.tryDespawn e) = (w, [])) ∧
    (w.isAlive e = true →
      applyCommand w (Command.despawn e) = (w.removeEntity e, []) ∧
      applyCommand w (Command.tryDespawn e) = (w.removeEntity e, [])) ∧
    (∀ cs, (applyBuffer w (Command.despawn e :: cs)).1 =
      (applyBuffer (applyCommand w (Command.despawn e)).1 cs).1) := by
  refine ⟨?_, ?_, ?_⟩
  · intro hdead
    constructor <;> simp [applyCommand, hdead]
  · intro halive
    constructor <;> simp [applyCommand, halive]
  · intro cs
    rfl

/-- Witness for C5: a dead entity in the empty world and a live entity
in a one-entity world. -/
theorem despawn_dead_warns_witness :
    (applyCommand { nextId := 0, entities := [] } (Command.despawn 0) =
      ({ nextId := 0, entities := [] }, [notFoundWarning 0]) ∧
     applyCommand { nextId := 0, entities := [] } (Command.tryDespawn 0) =
      ({ nextId := 0, entities := [] }, [])) ∧
    applyCommand { nextId := 1, entities := [{ id := 0, comps := [] }] }
        (Command.despawn 0) =
      (World.removeEntity { nextId := 1, entities := [{ id := 0, comps := [] }] } 0, []) :=
  ⟨(despawn_dead_warns { nextId := 0, entities := [] } 0).1 (by decide),
   ((despawn_dead_warns { nextId := 1, entities := [{ id := 0, comps := [] }] } 0).2.1
      (by decide)).1⟩

lemma advance_iterate (l : List QueryResult) (k : Nat) :
    QueryIter.advance^[k] ⟨l⟩ = ⟨l.drop k⟩ := by
  induction k generalizing l with
  | zero => simp
  | succ k ih =>
      rw [Function.iterate_succ_apply]
      have hstep : QueryIter.advance (⟨l⟩ : QueryIter) = ⟨l.drop 1⟩ := by
        cases l <;> rfl
      rw [hstep, ih, List.drop_drop, Nat.add_comm]

/-- C6: once a query's results are exhausted, `iter` returns the
"no more results" sentinel rather than an error, leaves the iterator
state unchanged, and every subsequent call returns the sentinel
again. -/
theorem iter_exhaustion (q : List QueryFor) (w : World) (k : Nat)
    (hk : (worldResults q w).length ≤ k) :
    (QueryIter.advance^[k] (queryIterInit q w)).next =
      (none, QueryIter.advance^[k] (queryIterInit q w)) ∧
    ∀ j, k ≤ j → ((QueryIter.advance^[j] (queryIterInit q w)).next).1 = none := by
  have hstate : ∀ j, k ≤ j → QueryIter.advance^[j] (queryIterInit q w) = ⟨[]⟩ := by
    intro j hj
    rw [queryIterInit, advance_iterate]
    simp [List.drop_eq_nil_of_le (hk.trans hj)]
  constructor
  · rw [hstate k le_rfl]
    rfl
  · intro j hj
    rw [hstate j hj]
    rfl

/-- Witness for C6 on a concrete empty query over the empty world. -/
theorem iter_exhaustion_witness :
    (worldResults [] { nextId := 0, entities := [] }).length ≤ 0 ∧
    (QueryIter.advance^[0] (queryIterInit [] { nextId := 0, entities := [] })).next =
      (none, QueryIter.advance^[0] (queryIterInit [] { nextId := 0, entities := [] })) :=
  ⟨by decide, (iter_exhaustion [] { nextId := 0, entities := [] } 0 (by decide)).1⟩

lemma find?_filter_of_imp {α : Type} (l : List α) (p r : α → Bool)
    (h : ∀ x, p x = true → r x = true) :
    (l.filter r).find? p = l.find? p := by
  induction l with
  | nil => rfl
  | cons x xs ih =>
      by_cases hr : r x = true
      · rw [List.filter_cons, if_pos hr]
        cases hp : p x
        · rw [List.find?_cons_of_neg _ (by simp [hp]), List.find?_cons_of_neg _ (by simp [hp]), ih]
        · rw [List.find?_cons_of_pos _ hp, List.find?_cons_of_pos _ hp]
      · have hp : p x = false := by
          cases hpx : p x
          · rfl
          · exact absurd (h x hpx) hr
        rw [List.filter_cons, if_neg hr, ih, List.find?_cons_of_neg _ (by simp [hp])]

lemma lookup_setComp (cs : List (CompName × Payload)) (n : CompName) (v : Payload)
    (m : CompName) :
    lookupComp (setComp cs n v) m = if m = n then some v else lookupComp cs m := by
  unfold lookupComp setComp
  rw [List.find?_append]
  by_cases hmn : m = n
  · subst hmn
    have h1 : ((cs.filter fun p => !(p.1 == m)).find? fun p => p.1 == m) = none := by
      rw [List.find?_eq_none]
      intro x hx
      rcases List.mem_filter.mp hx with ⟨_, hneg⟩
      simpa using hneg
    rw [h1]
    simp [List.find?]
  · have hnm : ((n : CompName) == m) = false := by
      simp only [beq_eq_false_iff_ne, ne_eq]
      exact fun hh => hmn hh.symm
    have h2 : ([((n : CompName), (v : Payload))].find? fun p => p.1 == m) = none := by
      simp [List.find?, hnm]
    rw [h2, find?_filter_of_imp]
    · rw [if_neg hmn]
      simp
    · intro x hx
      simp only [beq_iff_eq] at hx
      simp only [Bool.not_eq_true', beq_eq_false_iff_ne, ne_eq, hx]
      exact hmn

lemma lastPayload_cons (p : CompName × Payload) (b : List (CompName × Payload))
    (n : CompName) :
    lastPayload (p :: b) n =
      (lastPayload b n).or (if p.1 == n then some p.2 else none) := by
  unfold lastPayload
  rw [List.reverse_cons, List.find?_append]
  cases hf : b.reverse.find? fun q => q.1 == n
  · cases hp : (p.1 == n) <;> simp [List.find?, hp]
  · simp

lemma lookup_insertBundle (b : List (CompName × Payload))
    (cs : List (CompName × Payload)) (n : CompName) :
    lookupComp (insertBundle cs b) n = (lastPayload b n).or (lookupComp cs n) := by
  induction b generalizing cs with
  | nil => simp [insertBundle, lastPayload]
  | cons p b ih =>
      rw [insertBundle, List.foldl_cons]
      have hb : (b.foldl (fun acc q => setComp acc q.1 q.2) (setComp cs p.1 p.2)) =
          insertBundle (setComp cs p.1 p.2) b := rfl
      rw [hb, ih, lastPayload_cons, lookup_setComp]
      cases lastPayload b n with
      | some u => simp
      | none =>
          by_cases h : n = p.1
          · subst h
            simp
          · have hpn : (p.1 == n) = false := by
              simp
              exact fun hh => h hh.symm
            simp [hpn, h]

lemma find?_map_modify (es : List EntityRec) (e : Nat)
    (f : List (CompName × Payload) → List (CompName × Payload)) :
    ((es.map fun r => if r.id == e then { id := r.id, comps := f r.comps } else r).find?
      fun r => r.id == e) =
    (es.find? fun r => r.id == e).map fun r => { id := r.id, comps := f r.comps } := by
  induction es with
  | nil => rfl
  | cons r es ih =>
      cases hr : (r.id == e)
      · rw [List.map_cons, if_neg (by simp [hr])]
        simp only [List.find?_cons, hr, ih]
      · rw [List.map_cons, if_pos hr]
        have hr2 : (({ id := r.id, comps := f r.comps } : EntityRec).id == e) = true := hr
        simp only [List.find?_cons, hr, hr2]
        rfl

lemma compsOf_modifyEntity (w : World) (e : Nat)
    (f : List (CompName × Payload) → List (CompName × Payload))
    (halive : w.isAlive e = true) :
    (w.modifyEntity e f).compsOf e = f (w.compsOf e) := by
  unfold World.isAlive at halive
  rcases List.any_eq_true.mp halive with ⟨r, hr, hid⟩
  have hsome : ((w.entities.find? fun s => s.id == e)).isSome :=
    List.find?_isSome.mpr ⟨r, hr, hid⟩
  rcases Option.isSome_iff_exists.mp hsome with ⟨s, hs⟩
  unfold World.compsOf World.modifyEntity
  simp only
  rw [find?_map_modify, hs]
  simp

/-- C7: inserting a bundle on a live entity overwrites any existing
component of the same name with the bundle's payload, and when the
bundle repeats a name, the last occurrence in bundle order is the
value that ends up on the entity; names outside the bundle are
untouched. -/
theorem insert_overwrites (w : World) (e : Nat)
    (b : List (CompName × Payload)) (n : CompName)
    (halive : w.isAlive e = true) :
    lookupComp ((applyCommand w (Command.insert e b)).1.compsOf e) n =
      (lastPayload b n).or (lookupComp (w.compsOf e) n) := by
  have happ : (applyCommand w (Command.insert e b)).1 =
      w.modifyEntity e fun cs => insertBundle cs b := by
    simp [applyCommand, halive]
  rw [happ, compsOf_modifyEntity w e _ halive, lookup_insertBundle]

/-- Witness for C7: a duplicate-name bundle applied to a live entity;
the last occurrence of "A" is the payload "v2" that wins. -/
theorem insert_overwrites_witness :
    World.isAlive { nextId := 1, entities := [{ id := 0, comps := [("A", "old"), ("B", "keep")] }] } 0 = true ∧
    lastPayload [("A", "v1"), ("A", "v2"), ("C", "c1")] "A" = some ("v2") ∧
    lookupComp
      ((applyCommand { nextId := 1, entities := [{ id := 0, comps := [("A", "old"), ("B", "keep")] }] }
        (Command.insert 0 [("A", "v1"), ("A", "v2"), ("C", "c1")])).1.compsOf 0) "A" =
      (lastPayload [("A", "v1"), ("A", "v2"), ("C", "c1")] "A").or
        (lookupComp
          (World.compsOf { nextId := 1, entities := [{ id := 0, comps := [("A", "old"), ("B", "keep")] }] } 0) "A") :=
  ⟨by decide, by decide,
   insert_overwrites { nextId := 1, entities := [{ id := 0, comps := [("A", "old"), ("B", "keep")] }] }
     0 [("A", "v1"), ("A", "v2"), ("C", "c1")] "A" (by decide)⟩

lemma any_id_map_modify (es : List EntityRec) (e e2 : Nat)
    (f : List (CompName × Payload) → List (CompName × Payload)) :
    ((es.map fun r => if r.id == e then { id := r.id, comps := f r.comps } else r).any
      fun r => r.id == e2) = es.any fun r => r.id == e2 := by
  induction es with
  | nil => rfl
  | cons r es ih =>
      by_cases hr : (r.id == e) = true
      · simp only [List.map_cons, List.any_cons, if_pos hr, ih]
      · simp only [List.map_cons, List.any_cons, if_neg hr, ih]

lemma isAlive_modifyEntity (w : World) (e e2 : Nat)
    (f : List (CompName × Payload) → List (CompName × Payload)) :
    (w.modifyEntity e f).isAlive e2 = w.isAlive e2 := by
  unfold World.isAlive World.modifyEntity
  simpa using any_id_map_modify w.entities e e2 f

lemma modifyEntity_modifyEntity (w : World) (e : Nat)
    (f g : List (CompName × Payload) → List (CompName × Payload)) :
    (w.modifyEntity e f).modifyEntity e g = w.modifyEntity e fun cs => g (f cs) := by
  unfold World.modifyEntity
  simp only [List.map_map]
  congr 1
  apply List.map_congr_left
  intro r _
  by_cases hr : (r.id == e) = true
  · simp [Function.comp, hr]
  · simp [Function.comp, hr]

lemma removeNames_idem (cs : List (CompName × Payload)) (ns : List CompName) :
    removeNames (removeNames cs ns) ns = removeNames cs ns := by
  unfold removeNames
  rw [List.filter_filter]
  simp

/-- C8: queuing `remove` of the same names twice in one command buffer
has the same effect on the applied world as queuing it once, and
removing names that are not present is a no-op, so repeated removal is
idempotent. -/
theorem remove_idempotent (w : World) (e : Nat) (ns : List CompName) :
    (applyCommand (applyCommand w (Command.remove e ns)).1 (Command.remove e ns)).1 =
      (applyCommand w (Command.remove e ns)).1 ∧
    (∀ cs, (applyBuffer w (Command.remove e ns :: Command.remove e ns :: cs)).1 =
      (applyBuffer w (Command.remove e ns :: cs)).1) ∧
    (∀ cs2, (∀ n ∈ ns, lookupComp cs2 n = none) → removeNames cs2 ns = cs2) := by
  have hmain : (applyCommand (applyCommand w (Command.remove e ns)).1 (Command.remove e ns)).1 =
      (applyCommand w (Command.remove e ns)).1 := by
    cases halive : w.isAlive e
    · simp [applyCommand, halive]
    · simp only [applyCommand, halive, if_true, isAlive_modifyEntity]
      rw [modifyEntity_modifyEntity]
      congr 1
      funext cs
      exact removeNames_idem cs ns
  refine ⟨hmain, ?_, ?_⟩
  · intro cs
    show (applyBuffer (applyCommand (applyCommand w (Command.remove e ns)).1 (Command.remove e ns)).1 cs).1 =
      (applyBuffer (applyCommand w (Command.remove e ns)).1 cs).1
    rw [hmain]
  · intro cs2 hnone
    unfold removeNames
    rw [List.filter_eq_self]
    intro p hp
    cases hcc : ns.contains p.1 with
    | false => simp [hcc]
    | true =>
        exfalso
        have hmem : p.1 ∈ ns := (contains_iff_mem ns p.1).mp hcc
        have hlook := hnone p.1 hmem
        have hsome : ((cs2.find? fun q => q.1 == p.1)).isSome :=
          List.find?_isSome.mpr ⟨p, hp, by simp⟩
        unfold lookupComp at hlook
        rcases Option.isSome_iff_exists.mp hsome with ⟨s, hs⟩
        rw [hs] at hlook
        simp at hlook

/-- Witness for C8: removing "X" from a component list lacking it, and
the double-remove equality on a concrete world. -/
theorem remove_idempotent_witness :
    (∀ n ∈ ["X"], lookupComp [("B", "b")] n = none) ∧
    removeNames [("B", "b")] ["X"] = [("B", "b")] ∧
    (applyBuffer { nextId := 1, entities := [{ id := 0, comps := [("X", "x")] }] }
        [Command.remove 0 ["X"], Command.remove 0 ["X"]]).1 =
      (applyBuffer { nextId := 1, entities := [{ id := 0, comps := [("X", "x")] }] }
        [Command.remove 0 ["X"]]).1 :=
  ⟨by decide,
   (remove_idempotent { nextId := 0, entities := [] } 0 ["X"]).2.2 [("B", "b")] (by decide),
   (remove_idempotent { nextId := 1, entities := [{ id := 0, comps := [("X", "x")] }] }
     0 ["X"]).2.1 []⟩

lemma queryMatches_mySystem (names : List CompName) :
    queryMatches names mySystemQuery = names.contains myComponentName := by
  simp [queryMatches, mySystemQuery, filterMatch]

lemma worldResults_mySystem_length (w : World) :
    (worldResults mySystemQuery w).length = countMy w := by
  unfold worldResults countMy
  rw [List.length_map]
  congr 1
  apply List.filter_congr
  intro r _
  exact queryMatches_mySystem (entityNames r)

lemma mem_names_setComp (cs : List (CompName × Payload)) (n : CompName) (v : Payload)
    (m : CompName) (hm : m ≠ n) :
    m ∈ (setComp cs n v).map Prod.fst ↔ m ∈ cs.map Prod.fst := by
  simp only [setComp, List.map_append, List.mem_append, List.mem_map, List.mem_filter]
  constructor
  · rintro (⟨p, ⟨hp, _⟩, rfl⟩ | h)
    · exact ⟨p, hp, rfl⟩
    · simp at h
      exact absurd h.symm hm
  · rintro ⟨p, hp, rfl⟩
    left
    refine ⟨p, ⟨hp, ?_⟩, rfl⟩
    simpa using hm

lemma contains_eq_of_iff {l l2 : List CompName} {m : CompName}
    (h : m ∈ l ↔ m ∈ l2) : l.contains m = l2.contains m := by
  rw [Bool.eq_iff_iff, contains_iff_mem, contains_iff_mem]
  exact h

lemma countMy_spinCubeRun (g : Payload → Payload) (w : World) :
    countMy (spinCubeRun g w) = countMy w := by
  unfold countMy spinCubeRun
  simp only
  rw [List.filter_map, List.length_map]
  congr 1
  apply List.filter_congr
  intro r _
  by_cases hq : queryMatches (entityNames r) spinCubeQuery = true
  · simp only [Function.comp, if_pos hq]
    show ((setComp r.comps transformName _).map Prod.fst).contains myComponentName =
      ((r.comps.map Prod.fst)).contains myComponentName
    exact contains_eq_of_iff (mem_names_setComp _ _ _ _ (by decide))
  · simp [Function.comp, hq]

lemma numEntities_spinCubeRun (g : Payload → Payload) (w : World) :
    numEntities (spinCubeRun g w) = numEntities w := by
  simp [numEntities, spinCubeRun]

lemma mySystemCommands_of_lt (w : World) (h : countMy w < 10) :
    mySystemCommands w = [Command.spawn mySpawnBundle] := by
  unfold mySystemCommands
  rw [worldResults_mySystem_length]
  simp only
  rw [if_neg (by omega)]

lemma mySystemCommands_of_ge (w : World) (h : 10 ≤ countMy w) :
    mySystemCommands w = [] := by
  unfold mySystemCommands
  rw [worldResults_mySystem_length]
  simp only
  rw [if_pos h]

lemma spawn_step (w : World) :
    (applyCommand w (Command.spawn mySpawnBundle)).1 =
      { nextId := w.nextId + 1,
        entities := w.entities ++ [{ id := w.nextId, comps := insertBundle [] mySpawnBundle }] } :=
  rfl

lemma countMy_append_spawn (w : World) :
    countMy
      { nextId := w.nextId + 1
        entities := w.entities ++ [{ id := w.nextId, comps := insertBundle [] mySpawnBundle }] } =
    countMy w + 1 := by
  unfold countMy
  simp only
  rw [List.filter_append, List.length_append]
  have hmem : myComponentName ∈
      entityNames { id := w.nextId, comps := insertBundle [] mySpawnBundle } := by
    have h : ((insertBundle [] mySpawnBundle).map Prod.fst).contains myComponentName = true := by
      decide
    exact (contains_iff_mem _ _).mp h
  simp [hmem]

lemma countMy_runUpdate (g : Payload → Payload) (w : World) :
    countMy (runUpdate g w) = if countMy w < 10 then countMy w + 1 else countMy w := by
  by_cases h : countMy w < 10
  · rw [if_pos h, runUpdate, mySystemCommands_of_lt w h]
    show countMy (applyCommand (spinCubeRun g w) (Command.spawn mySpawnBundle)).1 =
      countMy w + 1
    rw [spawn_step, countMy_append_spawn, countMy_spinCubeRun]
  · rw [if_neg h, runUpdate, mySystemCommands_of_ge w (by omega)]
    show countMy (spinCubeRun g w) = countMy w
    exact countMy_spinCubeRun g w

lemma numEntities_runUpdate (g : Payload → Payload) (w : World) :
    numEntities (runUpdate g w) =
      if countMy w < 10 then numEntities w + 1 else numEntities w := by
  by_cases h : countMy w < 10
  · rw [if_pos h, runUpdate, mySystemCommands_of_lt w h]
    show numEntities (applyCommand (spinCubeRun g w) (Command.spawn mySpawnBundle)).1 =
      numEntities w + 1
    rw [spawn_step]
    simp [numEntities, spinCubeRun]
  · rw [if_neg h, runUpdate, mySystemCommands_of_ge w (by omega)]
    show numEntities (spinCubeRun g w) = numEntities w
    exact numEntities_spinCubeRun g w

lemma countMy_iterate (g : Payload → Payload) (w0 : World) (h0 : countMy w0 = 0)
    (n : Nat) (hn : n ≤ 10) :
    countMy ((runUpdate g)^[n] w0) = n := by
  induction n with
  | zero => simpa using h0
  | succ n ih =>
      rw [Function.iterate_succ_apply', countMy_runUpdate, ih (by omega),
        if_pos (by omega)]

/-- C2: in the example mod, running the Update stage 10 times from a
world with no "python::MyComponent" entities leaves exactly 10 such
entities, and an 11th execution spawns no new entity; `my_system`
spawns exactly one entity bearing both "python::MyComponent" and the
Transform per invocation while the query count is below 10, and queues
nothing once the count reaches 10. The spin-cube payload arithmetic is
abstracted by `g`. -/
theorem my_system_count_gate (g : Payload → Payload) (w0 : World)
    (h0 : countMy w0 = 0) :
    countMy ((runUpdate g)^[10] w0) = 10 ∧
    countMy ((runUpdate g)^[11] w0) = 10 ∧
    numEntities ((runUpdate g)^[11] w0) = numEntities ((runUpdate g)^[10] w0) ∧
    (∀ w, countMy w < 10 →
      countMy (runUpdate g w) = countMy w + 1 ∧
      numEntities (runUpdate g w) = numEntities w + 1 ∧
      (runUpdate g w).entities =
        (spinCubeRun g w).entities ++
          [{ id := (spinCubeRun g w).nextId, comps := insertBundle [] mySpawnBundle }] ∧
      ((insertBundle [] mySpawnBundle).map Prod.fst).contains myComponentName = true ∧
      ((insertBundle [] mySpawnBundle).map Prod.fst).contains transformName = true) ∧
    (∀ w, 10 ≤ countMy w → runUpdate g w = spinCubeRun g w) := by
  have h10 : countMy ((runUpdate g)^[10] w0) = 10 := countMy_iterate g w0 h0 10 le_rfl
  have h11 : (runUpdate g)^[11] w0 = runUpdate g ((runUpdate g)^[10] w0) :=
    Function.iterate_succ_apply' (runUpdate g) 10 w0
  refine ⟨h10, ?_, ?_, ?_, ?_⟩
  · rw [h11, countMy_runUpdate, h10]
    simp
  · rw [h11, numEntities_runUpdate, h10]
    simp
  · intro w hw
    refine ⟨?_, ?_, ?_, by decide, by decide⟩
    · rw [countMy_runUpdate, if_pos hw]
    · rw [numEntities_runUpdate, if_pos hw]
    · rw [runUpdate, mySystemCommands_of_lt w hw]
      rfl
  · intro w hw
    rw [runUpdate, mySystemCommands_of_ge w hw]
    rfl

/-- Witness for C2: the empty world reaches exactly 10 MyComponent
entities after 10 Update executions, and the first execution spawns
exactly one. -/
theorem my_system_count_gate_witness :
    countMy { nextId := 0, entities := [] } = 0 ∧
    countMy ((runUpdate id)^[10] { nextId := 0, entities := [] }) = 10 ∧
    countMy (runUpdate id { nextId := 0, entities := [] }) =
      countMy { nextId := 0, entities := [] } + 1 :=
  ⟨rfl, (my_system_count_gate id { nextId := 0, entities := [] } rfl).1,
   ((my_system_count_gate id { nextId := 0, entities := [] } rfl).2.2.2.1
      { nextId := 0, entities := [] } (by decide)).1⟩

/-- C10: `q_normalize` is total and never divides by zero: when the
Euclidean norm of the four inputs is exactly zero (equivalently, all
four inputs are zero) it returns the identity quaternion, and
otherwise it returns each element divided by that nonzero norm. -/
theorem q_normalize_total (w x y z : ℝ) :
    (Real.sqrt (w * w + x * x + y * y + z * z) = 0 ↔
      (w = 0 ∧ x = 0 ∧ y = 0 ∧ z = 0)) ∧
    ((w = 0 ∧ x = 0 ∧ y = 0 ∧ z = 0) → q_normalize w x y z = [1, 0, 0, 0]) ∧
    (¬(w = 0 ∧ x = 0 ∧ y = 0 ∧ z = 0) →
      Real.sqrt (w * w + x * x + y * y + z * z) ≠ 0 ∧
      q_normalize w x y z =
        [w / Real.sqrt (w * w + x * x + y * y + z * z),
         x / Real.sqrt (w * w + x * x + y * y + z * z),
         y / Real.sqrt (w * w + x * x + y * y + z * z),
         z / Real.sqrt (w * w + x * x + y * y + z * z)]) := by
  have hnn : (0 : ℝ) ≤ w * w + x * x + y * y + z * z := by
    nlinarith [mul_self_nonneg w, mul_self_nonneg x, mul_self_nonneg y, mul_self_nonneg z]
  have hiff : Real.sqrt (w * w + x * x + y * y + z * z) = 0 ↔
      (w = 0 ∧ x = 0 ∧ y = 0 ∧ z = 0) := by
    rw [Real.sqrt_eq_zero hnn]
    constructor
    · intro h
      have hw : w * w = 0 := by
        nlinarith [mul_self_nonneg w, mul_self_nonneg x, mul_self_nonneg y, mul_self_nonneg z]
      have hx : x * x = 0 := by
        nlinarith [mul_self_nonneg w, mul_self_nonneg x, mul_self_nonneg y, mul_self_nonneg z]
      have hy : y * y = 0 := by
        nlinarith [mul_self_nonneg w, mul_self_nonneg x, mul_self_nonneg y, mul_self_nonneg z]
      have hz : z * z = 0 := by
        nlinarith [mul_self_nonneg w, mul_self_nonneg x, mul_self_nonneg y, mul_self_nonneg z]
      exact ⟨mul_self_eq_zero.mp hw, mul_self_eq_zero.mp hx,
        mul_self_eq_zero.mp hy, mul_self_eq_zero.mp hz⟩
    · rintro ⟨rfl, rfl, rfl, rfl⟩
      ring
  refine ⟨hiff, ?_, ?_⟩
  · intro h
    rw [q_normalize, if_pos (hiff.mpr h)]
  · intro h
    have hne : Real.sqrt (w * w + x * x + y * y + z * z) ≠ 0 := fun hh => h (hiff.mp hh)
    exact ⟨hne, by rw [q_normalize, if_neg hne]⟩

/-- Witness for C10 at the all-zero input and at the unit input. -/
theorem q_normalize_total_witness :
    q_normalize 0 0 0 0 = [1, 0, 0, 0] ∧
    Real.sqrt (1 * 1 + 0 * 0 + 0 * 0 + 0 * 0) ≠ 0 :=
  ⟨(q_normalize_total 0 0 0 0).2.1 ⟨rfl, rfl, rfl, rfl⟩,
   ((q_normalize_total 1 0 0 0).2.2 (by norm_num)).1⟩

end Wasvy
